import Mathlib

/-!
Verification of the decompiled functions in `src/samples/src/c/unwrap_loops.c`
against the control-flow / idiom-recovery specification.

Machine integers are modelled as `Int` with explicit two's-complement
wrapping (`wrap32`) and explicit unsigned reinterpretation (`toU32`).
Each C function is embedded as a small-step state machine whose program
counters correspond to the labels / statements of the source, and whose
observable behaviour (calls to external functions, compare-and-exchange
operations, region entry/exit) is recorded in an event trace.
-/

/-- Two's-complement wrap of an integer into the signed 32-bit range
`[-2^31, 2^31)`. -/
def wrap32 (x : Int) : Int := (x + 2 ^ 31) % 2 ^ 32 - 2 ^ 31

/-- Reinterpretation of an integer as an unsigned 32-bit value (the value of
the C conversion `(unsigned int)x` for an in-range signed `x`). -/
def toU32 (x : Int) : Int := x % 2 ^ 32

/-- `x` is a representable signed 32-bit value. -/
def int32Range (x : Int) : Prop := -(2 ^ 31) ≤ x ∧ x < 2 ^ 31

/-- `x` is a representable unsigned 32-bit value. -/
def uint32Range (x : Int) : Prop := 0 ≤ x ∧ x < 2 ^ 32

theorem wrap32_eq_self {x : Int} (h : int32Range x) : wrap32 x = x := by
  rcases h with ⟨h1, h2⟩
  unfold wrap32
  have h0 : (0 : Int) ≤ x + 2 ^ 31 := by linarith
  have hlt : x + 2 ^ 31 < 2 ^ 32 := by linarith [h2]
  rw [Int.emod_eq_of_lt h0 hlt]
  ring

theorem wrap32_int32Range (x : Int) : int32Range (wrap32 x) := by
  unfold wrap32 int32Range
  have h2 : (0 : Int) < 2 ^ 32 := by norm_num
  constructor
  · have := Int.emod_nonneg (x + 2 ^ 31) (by norm_num : (2 ^ 32 : Int) ≠ 0)
    linarith
  · have := Int.emod_lt_of_pos (x + 2 ^ 31) h2
    linarith

theorem toU32_eq_self {x : Int} (h : uint32Range x) : toU32 x = x :=
  Int.emod_eq_of_lt h.1 h.2

theorem wrap32_emod (x : Int) : wrap32 x % 2 ^ 32 = x % 2 ^ 32 := by
  unfold wrap32
  omega

theorem wrap32_add_left (x y : Int) : wrap32 (wrap32 x + y) = wrap32 (x + y) := by
  unfold wrap32
  omega

theorem wrap32_mul_left (x y : Int) : wrap32 (wrap32 x * y) = wrap32 (x * y) := by
  have h1 : (wrap32 x * y) % 2 ^ 32 = (x * y) % 2 ^ 32 := by
    rw [Int.mul_emod, wrap32_emod, ← Int.mul_emod]
  unfold wrap32 at h1 ⊢
  omega

theorem wrap32_eq_iff {x y : Int} (hx : 0 ≤ x) (hx2 : x < 2 ^ 32) (hy : 0 ≤ y)
    (hy2 : y < 2 ^ 32) : wrap32 x = wrap32 y ↔ x = y := by
  unfold wrap32
  omega

/-! ## `unwrap_loops_2` (lines 44–80): capacity-growth resize

The function reads the stored old size at `a2+0x14` into `v9`, compares it
(as unsigned) against the requested size `n8`, and on the growth path
computes `v6 = v9 + (v9 >> 1)`, clamps to the requested size, clamps to the
floor constant, and calls `sub_1800D3BF0(6, 0x4D, 0x3B, v6, a2)`. -/

/-- Pre-clamp growth of `unwrap_loops_2`, line 69: `v6 = v9 + (v9 >> 1)`.
The shift is an arithmetic shift right (floor division by two); the int32
addition wraps. -/
def growthFn (v : Int) : Int := wrap32 (v + Int.ediv v 2)

/-- First clamp of `unwrap_loops_2`, lines 70–71: `if (v6 <= n8) v6 = n8;`.
`v6` is `int`, `n8` is `unsigned int`, so the comparison converts `v6` to
unsigned and the assignment converts `n8` back to `int`. -/
def clampReqFn (n8 v : Int) : Int := if toU32 v ≤ n8 then wrap32 n8 else v

/-- Second clamp of `unwrap_loops_2`, lines 73–74: `if (v6 < 9) v6 = 8;`
(signed comparison against the floor). -/
def clampFloorFn (v : Int) : Int := if v < 9 then 8 else v

/-- Program counters of the `unwrap_loops_2` state machine, one per source
location. -/
inductive Pc2 where
  | whileTop | loadCmp | afterWhile | growthSt | clampReqSt | clampFloorSt
  | callSub | forUpdate | halted
deriving DecidableEq

/-- One recorded call `sub_1800D3BF0(c1, c2, c3, newSize, buf)` (line 76). -/
structure SubCall where
  c1 : Int
  c2 : Int
  c3 : Int
  newSize : Int
  buf : Int
deriving DecidableEq

/-- State of the `unwrap_loops_2` machine: locals `i`, `v9`, `v6`, `result`
plus the list of emitted resize calls. -/
structure St2 where
  pc : Pc2
  i : Int
  v9 : Int
  v6 : Int
  result : Int
  calls : List SubCall
deriving DecidableEq

/-- One step of `unwrap_loops_2`.  `n8` is the requested size (unsigned),
`stored` the int32 value read from `a2+0x14`, `bufArg` the pointer `a2`. -/
def step2 (n8 stored bufArg : Int) (s : St2) : St2 :=
  match s.pc with
  | .whileTop => { s with result := s.i,
                          pc := if s.i = 0 then .loadCmp else .afterWhile }
  | .loadCmp => { s with v9 := stored,
                         i := if n8 ≤ toU32 stored then 1 else 2,
                         pc := .whileTop }
  | .afterWhile => { s with pc := if s.i = 2 then .growthSt else .halted }
  | .growthSt => { s with v6 := growthFn s.v9, pc := .clampReqSt }
  | .clampReqSt => { s with v6 := clampReqFn n8 s.v6, pc := .clampFloorSt }
  | .clampFloorSt => { s with v6 := clampFloorFn s.v6, pc := .callSub }
  | .callSub => { s with calls := s.calls ++ [⟨6, 0x4D, 0x3B, s.v6, bufArg⟩],
                         pc := .forUpdate }
  | .forUpdate => { s with i := 1, pc := .whileTop }
  | .halted => s

/-- Initial state of `unwrap_loops_2`; `v90`, `v60`, `r0` are the junk values
of the uninitialised locals (they are written before being read). -/
def init2 (v90 v60 r0 : Int) : St2 :=
  { pc := .whileTop, i := 0, v9 := v90, v6 := v60, result := r0, calls := [] }

/-- Run the `unwrap_loops_2` machine for `n` steps. -/
def run2 (n8 stored bufArg : Int) : Nat → St2 → St2
  | 0, s => s
  | n + 1, s => run2 n8 stored bufArg n (step2 n8 stored bufArg s)

theorem run2_noGrowth (n8 stored bufArg v90 v60 r0 : Int)
    (h : n8 ≤ toU32 stored) :
    run2 n8 stored bufArg 11 (init2 v90 v60 r0) =
      { pc := .halted, i := 1, v9 := stored, v6 := v60, result := 1,
        calls := [] } := by
  simp [run2, step2, init2, if_pos h]

theorem run2_growth (n8 stored bufArg v90 v60 r0 : Int)
    (h : toU32 stored < n8) :
    run2 n8 stored bufArg 11 (init2 v90 v60 r0) =
      { pc := .halted, i := 1, v9 := stored,
        v6 := clampFloorFn (clampReqFn n8 (growthFn stored)), result := 1,
        calls := [⟨6, 0x4D, 0x3B,
                   clampFloorFn (clampReqFn n8 (growthFn stored)), bufArg⟩] } := by
  have h' : ¬ n8 ≤ toU32 stored := not_le.mpr h
  simp [run2, step2, init2, if_neg h']

theorem clamp_comm_below_floor (n8 v : Int) (hv : int32Range v)
    (h0 : 0 ≤ n8) (h8 : n8 < 8) :
    clampReqFn n8 (clampFloorFn v) = clampFloorFn (clampReqFn n8 v) := by
  have hv1 := hv.1
  have hv2 := hv.2
  have hw : wrap32 n8 = n8 := wrap32_eq_self ⟨by omega, by omega⟩
  unfold clampReqFn clampFloorFn toU32
  simp only [hw]
  split_ifs <;> omega

/-- **C1**: on the growth path of `unwrap_loops_2`, the size passed to
`sub_1800D3BF0` is the stored-size growth clamped first to the requested size
and then to the floor constant, in that order; for stored size 5 and
requested size 10 the growth is 7, the requested-size clamp raises it to 10
and the floor clamp leaves it at 10. -/
theorem c1_growth_clamp_order (n8 stored bufArg v90 v60 r0 : Int)
    (_hs : int32Range stored) (_hn : uint32Range n8)
    (hlt : toU32 stored < n8) :
    (run2 n8 stored bufArg 11 (init2 v90 v60 r0)).calls =
        [⟨6, 0x4D, 0x3B, clampFloorFn (clampReqFn n8 (growthFn stored)), bufArg⟩]
      ∧ growthFn 5 = 7 ∧ clampReqFn 10 (growthFn 5) = 10
      ∧ clampFloorFn (clampReqFn 10 (growthFn 5)) = 10 := by
  refine ⟨?_, by decide, by decide, by decide⟩
  rw [run2_growth n8 stored bufArg v90 v60 r0 hlt]

theorem c1_growth_clamp_order_witness :
    (run2 10 5 0 11 (init2 0 0 0)).calls = [⟨6, 0x4D, 0x3B, 10, 0⟩]
      ∧ growthFn 5 = 7 ∧ clampReqFn 10 (growthFn 5) = 10
      ∧ clampFloorFn (clampReqFn 10 (growthFn 5)) = 10 := by
  have h := c1_growth_clamp_order 10 5 0 0 0 0 ⟨by decide, by decide⟩
    ⟨by decide, by decide⟩ (by decide)
  have h1 := h.1
  rw [h.2.2.2] at h1
  exact ⟨h1, h.2.1, h.2.2.1, h.2.2.2⟩

/-- **C2** (counterexample to the claim as stated): there are no stored old
size and requested size strictly below the floor constant on which the
reversed clamp order (floor first, requested second) disagrees with the
implemented order (requested first, floor second). -/
theorem c2_counterexample :
    ¬ ∃ stored n8 : Int, int32Range stored ∧ 0 ≤ n8 ∧ n8 < 8 ∧
        clampReqFn n8 (clampFloorFn (growthFn stored)) ≠
          clampFloorFn (clampReqFn n8 (growthFn stored)) := by
  rintro ⟨stored, n8, _, h0, h8, hne⟩
  exact hne (clamp_comm_below_floor n8 (growthFn stored) (wrap32_int32Range _) h0 h8)

/-- **C2** (amended): for every int32 stored old size and every requested
size strictly below the floor constant, the reversed clamp order yields the
same final size as the implemented order; the two compositions do differ on
some inputs whose requested size is not below the floor (stored size −3 with
requested size 2^31 yields −2^31 reversed but 8 as implemented). -/
theorem c2_amended :
    (∀ stored n8 : Int, int32Range stored → 0 ≤ n8 → n8 < 8 →
        clampReqFn n8 (clampFloorFn (growthFn stored)) =
          clampFloorFn (clampReqFn n8 (growthFn stored)))
    ∧ clampReqFn (2 ^ 31) (clampFloorFn (growthFn (-3))) ≠
        clampFloorFn (clampReqFn (2 ^ 31) (growthFn (-3))) := by
  constructor
  · intro stored n8 _ h0 h8
    exact clamp_comm_below_floor n8 (growthFn stored) (wrap32_int32Range _) h0 h8
  · decide

theorem c2_amended_witness :
    clampReqFn 5 (clampFloorFn (growthFn 3)) =
      clampFloorFn (clampReqFn 5 (growthFn 3)) :=
  c2_amended.1 3 5 ⟨by decide, by decide⟩ (by decide) (by decide)

/-- **C6** (counterexample to the claim as stated): at stored old size −1 the
growth computed by the code (arithmetic shift, i.e. floor division) is −2,
while the claimed truncating-division formula −1 + trunc(−1/2) gives −1. -/
theorem c6_counterexample :
    growthFn (-1) = -2 ∧ wrap32 ((-1) + Int.tdiv (-1) 2) = -1 ∧
      growthFn (-1) ≠ wrap32 ((-1) + Int.tdiv (-1) 2) := by
  refine ⟨by decide, by decide, by decide⟩

/-- **C6** (amended): for every stored old size the pre-clamp growth equals
old + ⌊old/2⌋ (floor division, the meaning of the arithmetic shift
`old >> 1`); it coincides with the truncating-division formula
old + trunc(old/2) exactly on sizes that are nonnegative or even, and the
two differ on negative odd sizes. -/
theorem c6_amended (v : Int) :
    growthFn v = wrap32 (v + Int.fdiv v 2)
      ∧ (0 ≤ v ∨ v % 2 = 0 → growthFn v = wrap32 (v + Int.tdiv v 2)) := by
  constructor
  · unfold growthFn
    rw [Int.fdiv_eq_ediv v (by norm_num)]
    rfl
  · intro h
    unfold growthFn
    have hdiv : Int.ediv v 2 = Int.tdiv v 2 := by
      rcases h with h | h
      · rw [Int.tdiv_eq_ediv h (by norm_num)]
        rfl
      · obtain ⟨k, hk⟩ : (2 : Int) ∣ v := Int.dvd_of_emod_eq_zero h
        subst hk
        show (2 * k) / 2 = (2 * k).tdiv 2
        rw [Int.mul_ediv_cancel_left k (by norm_num),
          Int.mul_tdiv_cancel_left k (by norm_num)]
    rw [hdiv]

theorem c6_amended_witness :
    growthFn 6 = wrap32 (6 + Int.tdiv 6 2) := (c6_amended 6).2 (Or.inl (by decide))

/-- **C10**: in every call of `unwrap_loops_2` the resize call is emitted at
most once, and it is emitted exactly when the stored size, reinterpreted as
unsigned, is strictly below the requested size. -/
theorem c10_resize_call_condition (n8 stored bufArg v90 v60 r0 : Int)
    (_hs : int32Range stored) (_hn : uint32Range n8) :
    (run2 n8 stored bufArg 11 (init2 v90 v60 r0)).pc = .halted
      ∧ (run2 n8 stored bufArg 11 (init2 v90 v60 r0)).calls.length ≤ 1
      ∧ ((run2 n8 stored bufArg 11 (init2 v90 v60 r0)).calls ≠ []
          ↔ toU32 stored < n8) := by
  rcases le_or_lt n8 (toU32 stored) with h | h
  · rw [run2_noGrowth n8 stored bufArg v90 v60 r0 h]
    refine ⟨rfl, by simp, ?_⟩
    simp [not_lt.mpr h]
  · rw [run2_growth n8 stored bufArg v90 v60 r0 h]
    refine ⟨rfl, by simp, ?_⟩
    simp [h]

theorem c10_resize_call_condition_witness :
    (run2 10 20 0 11 (init2 0 0 0)).pc = .halted
      ∧ (run2 10 20 0 11 (init2 0 0 0)).calls.length ≤ 1
      ∧ ((run2 10 20 0 11 (init2 0 0 0)).calls ≠ [] ↔ toU32 20 < 10) :=
  c10_resize_call_condition 10 20 0 0 0 0 ⟨by decide, by decide⟩
    ⟨by decide, by decide⟩

/-- Safety invariant of the `unwrap_loops_2` machine: whenever it has halted
its `result` is 1. -/
def Inv2 (s : St2) : Prop :=
  (s.pc = .halted → s.result = 1)
    ∧ (s.pc = .afterWhile → (s.i = 1 ∨ s.i = 2) ∧ s.result = s.i)
    ∧ (s.pc = .whileTop → s.i = 0 ∨ s.i = 1 ∨ s.i = 2)

theorem inv2_step (n8 stored bufArg : Int) (s : St2) (h : Inv2 s) :
    Inv2 (step2 n8 stored bufArg s) := by
  obtain ⟨h1, h2, h3⟩ := h
  unfold Inv2 step2
  cases hpc : s.pc <;>
    simp only [hpc, forall_const, reduceCtorEq, false_implies, true_and] at h1 h2 h3 ⊢ <;>
    (try split_ifs) <;> (try simp_all) <;> (try omega)

theorem inv2_run (n8 stored bufArg : Int) :
    ∀ (n : Nat) (s : St2), Inv2 s → Inv2 (run2 n8 stored bufArg n s) := by
  intro n
  induction n with
  | zero => intro s h; exact h
  | succ n ih => intro s h; exact ih _ (inv2_step n8 stored bufArg s h)

/-! ## `unwrap_loops` (lines 9–42): compare-and-exchange spin loop

The dispatch variable `i` cycles through {0,1,2}.  The value `0` leads to the
priming compare-and-exchange (line 24), `1` to the retry path with the
backoff call and the latch compare-and-exchange (lines 34–36), `2` to the
exit.  The results of the external `_InterlockedCompareExchange` calls are
the only nondeterminism and are supplied by an oracle indexed by call
number. -/

/-- Lock-like memory locations appearing in the source. -/
inductive MemLoc where
  | gMutexSpinCount
deriving DecidableEq

/-- Operand triple of an `_InterlockedCompareExchange` call. -/
structure CasArgs where
  loc : MemLoc
  exch : Int
  comparand : Int
deriving DecidableEq

/-- Operands of the priming compare-and-exchange, line 24:
`_InterlockedCompareExchange(&g_mutex.SpinCount, 1, 0)`. -/
def primingCasArgs : CasArgs := ⟨.gMutexSpinCount, 1, 0⟩

/-- Operands of the latch compare-and-exchange, line 35:
`_InterlockedCompareExchange(&g_mutex.SpinCount, 1, 0)`. -/
def latchCasArgs : CasArgs := ⟨.gMutexSpinCount, 1, 0⟩

/-- Branch condition of the priming check, line 24: `if (!ICX(...)) goto
LABEL_x379;` — the acquired branch is taken iff the returned value is 0. -/
def primingGoto (r : Int) : Bool := r == 0

/-- Branch condition of the latch check, line 35: `if (ICX(...)) goto
LABEL_x2B0;` — the retry branch is taken iff the returned value is nonzero. -/
def latchGoto (r : Int) : Bool := !(r == 0)

/-- Observable events of `unwrap_loops`: compare-and-exchange operations
(with their operands and returned value) and calls of the backoff action
`unk_1802CCC58` (with its boolean argument `v2++ >= 0x20`). -/
inductive Ev1 where
  | cas (args : CasArgs) (res : Int)
  | backoff (arg : Bool)
deriving DecidableEq

/-- Program counters of the `unwrap_loops` machine, one per source
location/label. -/
inductive Pc1 where
  | whileTop | casPrime | labX2B0 | afterWhile | doUnk | labX379 | halted
deriving DecidableEq

/-- State of the `unwrap_loops` machine: locals `i`, `v2`, `result`, the
number of compare-and-exchanges performed so far, and the event trace. -/
structure St1 where
  pc : Pc1
  i : Int
  v2 : Int
  result : Int
  casCount : Nat
  events : List Ev1
deriving DecidableEq

/-- One step of `unwrap_loops`; `o k` is the value returned by the `k`-th
compare-and-exchange. -/
def step1 (o : Nat → Int) (s : St1) : St1 :=
  match s.pc with
  | .whileTop => { s with result := s.i,
                          pc := if s.i = 0 then .casPrime else .afterWhile }
  | .casPrime =>
      { s with v2 := 0, casCount := s.casCount + 1,
               events := s.events ++ [.cas primingCasArgs (o s.casCount)],
               pc := if primingGoto (o s.casCount) then .labX379 else .labX2B0 }
  | .labX2B0 => { s with i := 1, pc := .whileTop }
  | .afterWhile => { s with pc := if s.i = 1 then .doUnk else .halted }
  | .doUnk =>
      { s with events := s.events ++ [.backoff (decide (32 ≤ s.v2)),
                                      .cas latchCasArgs (o s.casCount)],
               v2 := wrap32 (s.v2 + 1), casCount := s.casCount + 1,
               pc := if latchGoto (o s.casCount) then .labX2B0 else .labX379 }
  | .labX379 => { s with i := 2, pc := .whileTop }
  | .halted => s

/-- Initial state of `unwrap_loops`; `v20`, `r0` are the junk values of the
uninitialised locals. -/
def init1 (v20 r0 : Int) : St1 :=
  { pc := .whileTop, i := 0, v2 := v20, result := r0, casCount := 0,
    events := [] }

/-- Run the `unwrap_loops` machine for `n` steps. -/
def run1 (o : Nat → Int) : Nat → St1 → St1
  | 0, s => s
  | n + 1, s => run1 o n (step1 o s)

theorem run1_add (o : Nat → Int) (a b : Nat) :
    ∀ s : St1, run1 o (a + b) s = run1 o b (run1 o a s) := by
  induction a with
  | zero => intro s; simp [run1]
  | succ a ih =>
      intro s
      have h : a + 1 + b = (a + b) + 1 := by omega
      rw [h]
      show run1 o (a + b) (step1 o s) = run1 o b (run1 o (a + 1) s)
      rw [ih (step1 o s)]
      rfl

/-- Events of the `j`-th retry cycle of the spin loop: the backoff call with
argument `v2 >= 0x20` (where the counter equals `j`), followed by the latch
compare-and-exchange. -/
def cycleEvs (o : Nat → Int) (j : Nat) : List Ev1 :=
  [.backoff (decide (32 ≤ (j : Int))), .cas latchCasArgs (o (j + 1))]

theorem run1_cycle (o : Nat → Int) (j : Nat) (i0 r0 : Int) (E : List Ev1) :
    run1 o 4 ⟨.labX2B0, i0, (j : Int), r0, j + 1, E⟩ =
      ⟨if latchGoto (o (j + 1)) then .labX2B0 else .labX379, 1,
        wrap32 ((j : Int) + 1), 1, j + 2, E ++ cycleEvs o j⟩ := by
  simp [run1, step1, cycleEvs]

theorem cycle_join_succ (o : Nat → Int) (j d : Nat) (E : List Ev1) :
    (E ++ cycleEvs o j) ++
        ((List.range d).map (fun t => cycleEvs o (j + 1 + t))).flatten =
      E ++ ((List.range (d + 1)).map (fun t => cycleEvs o (j + t))).flatten := by
  have hmap : (List.range (d + 1)).map (fun t => cycleEvs o (j + t)) =
      cycleEvs o j :: (List.range d).map (fun t => cycleEvs o (j + 1 + t)) := by
    rw [List.range_succ_eq_map, List.map_cons, List.map_map]
    simp only [Function.comp, Nat.add_zero, List.cons.injEq, true_and]
    apply List.map_congr_left
    intro t _
    simp only [Function.comp_apply]
    have ht : j + Nat.succ t = j + 1 + t := by omega
    rw [ht]
  rw [hmap, List.flatten_cons, List.append_assoc]

theorem run1_tail (o : Nat → Int) (m : Nat) (hm : m ≤ 2 ^ 31)
    (hfail : ∀ k, k < m → o k ≠ 0) (hsucc : o m = 0) :
    ∀ d j, j + 1 + d = m → ∀ (i0 r0 : Int) (E : List Ev1),
      run1 o (4 * (d + 1) + 3) ⟨.labX2B0, i0, (j : Int), r0, j + 1, E⟩ =
        ⟨.halted, 2, wrap32 (m : Int), 2, m + 1,
          E ++ ((List.range (d + 1)).map (fun t => cycleEvs o (j + t))).flatten⟩ := by
  intro d
  induction d with
  | zero =>
      intro j hj i0 r0 E
      have hjm : j + 1 = m := by omega
      have hstep : (4 * (0 + 1) + 3 : Nat) = 4 + 3 := by norm_num
      rw [hstep, run1_add, run1_cycle]
      have hlg : latchGoto (o (j + 1)) = false := by
        rw [hjm, hsucc]; rfl
      rw [hlg]
      have hcast : ((j : Int) + 1) = (m : Int) := by exact_mod_cast hjm
      simp only [Bool.false_eq_true, if_false, hcast]
      simp only [run1, step1]
      simp [St1.mk.injEq, hjm]
      simp [List.range_succ]
  | succ d ih =>
      intro j hj i0 r0 E
      have hstep : (4 * (d + 1 + 1) + 3 : Nat) = 4 + (4 * (d + 1) + 3) := by ring
      rw [hstep, run1_add, run1_cycle]
      have hfail1 : o (j + 1) ≠ 0 := hfail (j + 1) (by omega)
      have hlg : latchGoto (o (j + 1)) = true := by
        unfold latchGoto
        simp [hfail1]
      rw [hlg]
      have hw : wrap32 ((j : Int) + 1) = ((j + 1 : Nat) : Int) := by
        have hc : ((j : Int) + 1) = ((j + 1 : Nat) : Int) := by push_cast; ring
        rw [hc]
        apply wrap32_eq_self
        constructor
        · have : (0 : Int) ≤ ((j + 1 : Nat) : Int) := Int.ofNat_nonneg _
          omega
        · have hjb : j + 1 < 2 ^ 31 := by omega
          exact_mod_cast hjb
      simp only [if_true, hw]
      have happ := ih (j + 1) (by omega) 1 1 (E ++ cycleEvs o j)
      rw [happ]
      rw [cycle_join_succ]

/-- Arguments of the backoff calls occurring in a trace, in order. -/
def backoffArgs (E : List Ev1) : List Bool :=
  E.filterMap (fun e => match e with | .backoff b => some b | _ => none)

theorem backoffArgs_append (E1 E2 : List Ev1) :
    backoffArgs (E1 ++ E2) = backoffArgs E1 ++ backoffArgs E2 := by
  simp [backoffArgs]

theorem backoffArgs_flatten (o : Nat → Int) (L : List Nat) :
    backoffArgs ((L.map (cycleEvs o)).flatten) =
      L.map (fun j : Nat => decide ((32 : Int) ≤ (j : Int))) := by
  induction L with
  | nil => rfl
  | cons a L ih =>
      simp only [List.map_cons, List.flatten_cons, backoffArgs_append, ih]
      rfl

/-- The full event trace of a spin-lock acquisition whose first `m`
compare-and-exchanges fail and whose `m`-th succeeds: the priming
compare-and-exchange followed by `m` retry cycles. -/
def spinTrace (o : Nat → Int) (m : Nat) : List Ev1 :=
  .cas primingCasArgs (o 0) :: ((List.range m).map (cycleEvs o)).flatten

/-- Bundle of the properties asserted by claim C3 for a terminating run of
the spin loop of `unwrap_loops`: the machine halts with the expected state
and the expected trace, every compare-and-exchange in the trace operates on
`&g_mutex.SpinCount` with exchange 1 and comparand 0, and the `j`-th backoff
call's argument is true exactly when the retry counter `j` has reached 32. -/
def C3Post (o : Nat → Int) (m : Nat) (v20 r0 : Int) : Prop :=
  run1 o (4 * m + 5) (init1 v20 r0) =
      ⟨.halted, 2, wrap32 (m : Int), 2, m + 1, spinTrace o m⟩
    ∧ (∀ a r, Ev1.cas a r ∈ spinTrace o m → a = ⟨.gMutexSpinCount, 1, 0⟩)
    ∧ backoffArgs (spinTrace o m) =
        (List.range m).map (fun j : Nat => decide (32 ≤ j))

/-- **C3**: the spin loop of `unwrap_loops` performs every
compare-and-exchange on `&g_mutex.SpinCount` with exchange 1 and comparand 0,
loops back on failure, and compares the incrementing retry counter `v2`
against the literal 0x20: the backoff action's argument is nonzero exactly
from the retry on which the counter has reached 32, and zero on every
earlier retry. -/
theorem c3_spin_wait (o : Nat → Int) (m : Nat) (v20 r0 : Int)
    (hm : m ≤ 2 ^ 31) (hfail : ∀ k, k < m → o k ≠ 0) (hsucc : o m = 0) :
    C3Post o m v20 r0 := by
  refine ⟨?_, ?_, ?_⟩
  · -- the run itself
    cases m with
    | zero =>
        have hpg : primingGoto (o 0) = true := by
          unfold primingGoto
          simp [hsucc]
        simp [run1, step1, init1, hpg, spinTrace]
        all_goals decide
    | succ d =>
        have hpg : primingGoto (o 0) = false := by
          unfold primingGoto
          simp [hfail 0 (by omega)]
        have hfuel : 4 * (d + 1) + 5 = 2 + (4 * (d + 1) + 3) := by ring
        rw [hfuel, run1_add]
        have h2 : run1 o 2 (init1 v20 r0) =
            ⟨.labX2B0, 0, ((0 : Nat) : Int), 0, 0 + 1,
              [.cas primingCasArgs (o 0)]⟩ := by
          simp [run1, step1, init1, hpg]
        rw [h2, run1_tail o (d + 1) hm hfail hsucc d 0 (by omega)]
        have hmap : (List.range (d + 1)).map (fun t => cycleEvs o (0 + t)) =
            (List.range (d + 1)).map (cycleEvs o) := by
          apply List.map_congr_left
          intro t _
          simp
        simp only [spinTrace, List.singleton_append, hmap]
  · -- every compare-and-exchange uses the same operands
    intro a r h
    simp only [spinTrace, List.mem_cons, List.mem_flatten, List.mem_map] at h
    rcases h with h | ⟨l, ⟨j, hj, rfl⟩, hl⟩
    · injection h with h1 _
    · simp only [cycleEvs, List.mem_cons, List.mem_singleton, List.not_mem_nil,
        or_false, reduceCtorEq, false_or] at hl
      injection hl with h1 _
  · -- backoff arguments: true exactly once the counter reached 32
    have hb : backoffArgs (spinTrace o m) =
        backoffArgs (((List.range m).map (cycleEvs o)).flatten) := rfl
    rw [hb, backoffArgs_flatten]
    apply List.map_congr_left
    intro j _
    rw [decide_eq_decide]
    constructor
    · intro h; exact_mod_cast h
    · intro h; exact_mod_cast h

/-- Oracle for the C3 witness: the first 33 compare-and-exchanges fail, the
next succeeds. -/
def witOracle1 (k : Nat) : Int := if k < 33 then 1 else 0

theorem c3_spin_wait_witness : C3Post witOracle1 33 0 0 :=
  c3_spin_wait witOracle1 33 0 0 (by norm_num) (by decide) (by decide)

/-- **C4**: the priming check (line 24) and the latch check (line 35) of
`unwrap_loops` evaluate `_InterlockedCompareExchange` with identical
operands (`&g_mutex.SpinCount`, exchange 1, comparand 0), and the two branch
conditions denote the same predicate over the returned value: the priming
check falls through into the retry path exactly when the latch check
branches back into it, namely on failure (nonzero return). -/
theorem c4_priming_latch_same_predicate :
    primingCasArgs = latchCasArgs
      ∧ (∀ r : Int, (!(primingGoto r)) = latchGoto r)
      ∧ (∀ r : Int, primingGoto r = true ↔ r = 0)
      ∧ (∀ r : Int, latchGoto r = true ↔ r ≠ 0) := by
  refine ⟨rfl, fun r => rfl, fun r => ?_, fun r => ?_⟩
  · simp [primingGoto]
  · simp [latchGoto]

/-! ## Claim C5: the dispatch variables against the ControlVariable definition

The occurrence lists below transcribe, in source order, every occurrence of
the dispatch variable `i` in the two functions. -/

/-- One syntactic occurrence of a local integer variable: a write of a
literal constant, a read inside a branch condition, or a read outside any
branch condition (e.g. on the right-hand side of an assignment). -/
inductive VarOcc where
  | writeConst (c : Int)
  | readBranch
  | readPlain
deriving DecidableEq

/-- Occurrences of `i` in `unwrap_loops`, in source order: `i = 0` and
`i = 2` (line 15), `result = i` (line 19), `if (i)` (line 20), `i = 1`
(line 28), `if (i != 1)` (line 31). -/
def unwrapLoops_iOccs : List VarOcc :=
  [.writeConst 0, .writeConst 2, .readPlain, .readBranch, .writeConst 1,
   .readBranch]

/-- Occurrences of `i` in `unwrap_loops_2`, in source order: `i = 0` and
`i = 1` (line 51), `result = i` (line 55), `if (i)` (line 56), `i = 1`
(line 61), `i = 2` (line 63), `if (i != 2)` (line 66). -/
def unwrapLoops2_iOccs : List VarOcc :=
  [.writeConst 0, .writeConst 1, .readPlain, .readBranch, .writeConst 1,
   .writeConst 2, .readBranch]

/-- An occurrence is not a write of anything other than the small literal
constants 0, 1, 2. -/
def smallWrite (o : VarOcc) : Bool :=
  match o with
  | .writeConst c => c == 0 || c == 1 || c == 2
  | _ => true

/-- An occurrence is not a read outside a branch condition. -/
def branchReadOnly (o : VarOcc) : Bool :=
  match o with
  | .readPlain => false
  | _ => true

/-- The spec's ControlVariable requirement on an occurrence list: every
write stores one of the small literal constants 0, 1, 2, and every read
occurs in a branch condition. -/
def IsControlVariable (occs : List VarOcc) : Prop :=
  (∀ o ∈ occs, smallWrite o = true) ∧ ∀ o ∈ occs, branchReadOnly o = true

/-- **C5** (counterexample to the claim as stated): the dispatch variables
of `unwrap_loops` and `unwrap_loops_2` do not satisfy the ControlVariable
definition, because the assignment `result = i` reads `i` outside a branch
condition (and its value escapes the region through `return result`). -/
theorem c5_counterexample :
    ¬ (IsControlVariable unwrapLoops_iOccs
        ∧ IsControlVariable unwrapLoops2_iOccs) := by
  rintro ⟨h, _⟩
  have hx := h.2 VarOcc.readPlain (by decide)
  simp [branchReadOnly] at hx

/-- **C5** (amended): in both functions every write to the dispatch
variable `i` stores one of the literal constants 0, 1, 2, and every read of
`i` except one occurs in a branch condition; the single non-branch read is
the assignment `result = i`, whose value escapes by being returned, so `i`
fails the ControlVariable definition in exactly this one way. -/
theorem c5_amended :
    (∀ o ∈ unwrapLoops_iOccs, smallWrite o = true)
      ∧ (∀ o ∈ unwrapLoops2_iOccs, smallWrite o = true)
      ∧ unwrapLoops_iOccs.count VarOcc.readPlain = 1
      ∧ unwrapLoops2_iOccs.count VarOcc.readPlain = 1
      ∧ ¬ IsControlVariable unwrapLoops_iOccs
      ∧ ¬ IsControlVariable unwrapLoops2_iOccs := by
  refine ⟨by decide, by decide, by decide, by decide, ?_, ?_⟩
  · rintro ⟨_, h⟩
    have hx := h VarOcc.readPlain (by decide)
    simp [branchReadOnly] at hx
  · rintro ⟨_, h⟩
    have hx := h VarOcc.readPlain (by decide)
    simp [branchReadOnly] at hx

/-! ## `unwrap_loops_3` (lines 82–120): counted loop inside a wind region

The function is annotated `// Hidden C++ exception states: #wind=1`.  The
protected region is the body of `if (a2)`; it contains a loop running `v10`
from 0 which calls `sub_180221640` twice per iteration and breaks when
`v9 + 1 == v5`.  Region entry (through the guard) and region exit (through
the break) are recorded as trace events. -/

/-- Effect of the decompiler idiom `HIDWORD(x) = h`: keep the low 32 bits of
`x` and set the high part to `h`. -/
def setHIDWORD (x h : Int) : Int := toU32 x + h * 2 ^ 32

theorem setHIDWORD_stable (x h h2 : Int) :
    setHIDWORD (setHIDWORD x h) h2 = setHIDWORD x h2 := by
  unfold setHIDWORD toU32
  omega

/-- Observable events of `unwrap_loops_3`: entry into the guarded region,
the calls of `sub_180221640` (recorded with the loop index `v10` current at
the call and the six argument values), and exit of the region through the
loop's break. -/
inductive Ev3 where
  | enter
  | callEvt (idx : Int) (args : List Int)
  | exitEv
deriving DecidableEq

/-- Program counters of the `unwrap_loops_3` machine. -/
inductive Pc3 where
  | entry | loopBody | ret | halted
deriving DecidableEq

/-- State of the `unwrap_loops_3` machine. -/
structure St3 where
  pc : Pc3
  v5 : Int
  v10 : Int
  v9 : Int
  v7 : Int
  v8 : Int
  result : Int
  events : List Ev3
deriving DecidableEq

/-- One step of `unwrap_loops_3`.  `a2` is the unsigned trip-count argument,
`mem x` the 64-bit value stored at address `x`, `a5` the base pointer. -/
def step3 (a2 : Nat) (mem : Int → Int) (a5 : Int) (s : St3) : St3 :=
  match s.pc with
  | .entry =>
      if a2 = 0 then { s with v5 := wrap32 (a2 : Int), pc := .ret }
      else { s with v5 := wrap32 (a2 : Int), v10 := 0,
                    events := s.events ++ [.enter], pc := .loopBody }
  | .loopBody =>
      let v9 := s.v10
      let v7 := setHIDWORD s.v7 2
      let c1 : Ev3 := .callEvt s.v10
        [mem (a5 + wrap32 (s.v10 * 64) + 0x28), 0xA, 0x5E,
         mem (a5 + wrap32 (s.v10 * 64) + 0x30), 0x45, v7]
      let v8 := setHIDWORD s.v8 3
      let c2 : Ev3 := .callEvt s.v10
        [mem (a5 + wrap32 (s.v10 * 64) + 0x10), 0x62, 0x2A,
         mem (a5 + wrap32 (s.v10 * 64) + 0x18), 0x19, v8]
      let v10 := wrap32 (s.v10 + 1)
      if wrap32 (v9 + 1) = s.v5 then
        { pc := .ret, v5 := s.v5, v10 := v10, v9 := v9, v7 := v7, v8 := v8,
          result := s.result, events := s.events ++ [c1, c2, .exitEv] }
      else
        { pc := .loopBody, v5 := s.v5, v10 := v10, v9 := v9, v7 := v7,
          v8 := v8, result := s.result, events := s.events ++ [c1, c2] }
  | .ret => { s with result := 4, pc := .halted }
  | .halted => s

/-- Initial state of `unwrap_loops_3`; all locals start with junk values. -/
def init3 (v50 v100 v90 v70 v80 r0 : Int) : St3 :=
  { pc := .entry, v5 := v50, v10 := v100, v9 := v90, v7 := v70, v8 := v80,
    result := r0, events := [] }

/-- Run the `unwrap_loops_3` machine for `n` steps. -/
def run3 (a2 : Nat) (mem : Int → Int) (a5 : Int) : Nat → St3 → St3
  | 0, s => s
  | n + 1, s => run3 a2 mem a5 n (step3 a2 mem a5 s)

theorem run3_add (a2 : Nat) (mem : Int → Int) (a5 : Int) (a b : Nat) :
    ∀ s : St3, run3 a2 mem a5 (a + b) s = run3 a2 mem a5 b (run3 a2 mem a5 a s) := by
  induction a with
  | zero => intro s; simp [run3]
  | succ a ih =>
      intro s
      have h : a + 1 + b = (a + b) + 1 := by omega
      rw [h]
      show run3 a2 mem a5 (a + b) (step3 a2 mem a5 s) =
        run3 a2 mem a5 b (run3 a2 mem a5 (a + 1) s)
      rw [ih (step3 a2 mem a5 s)]
      rfl

/-- Events produced by the iteration of `unwrap_loops_3` whose loop index is
`k`, for locals that started the region holding `v70` and `v80`. -/
def iterEvs3 (mem : Int → Int) (a5 v70 v80 : Int) (k : Nat) : List Ev3 :=
  [.callEvt (wrap32 (k : Int))
     [mem (a5 + wrap32 (wrap32 (k : Int) * 64) + 0x28), 0xA, 0x5E,
      mem (a5 + wrap32 (wrap32 (k : Int) * 64) + 0x30), 0x45,
      setHIDWORD v70 2],
   .callEvt (wrap32 (k : Int))
     [mem (a5 + wrap32 (wrap32 (k : Int) * 64) + 0x10), 0x62, 0x2A,
      mem (a5 + wrap32 (wrap32 (k : Int) * 64) + 0x18), 0x19,
      setHIDWORD v80 3]]

theorem iterEvs3_stable (mem : Int → Int) (a5 v70 v80 : Int) (k : Nat) :
    iterEvs3 mem a5 (setHIDWORD v70 2) (setHIDWORD v80 3) k =
      iterEvs3 mem a5 v70 v80 k := by
  unfold iterEvs3
  rw [setHIDWORD_stable, setHIDWORD_stable]

theorem flatten_range_shift {α : Type} (f : Nat → List α) (j d : Nat)
    (E : List α) :
    (E ++ f j) ++ ((List.range d).map (fun t => f (j + 1 + t))).flatten =
      E ++ ((List.range (d + 1)).map (fun t => f (j + t))).flatten := by
  have hmap : (List.range (d + 1)).map (fun t => f (j + t)) =
      f j :: (List.range d).map (fun t => f (j + 1 + t)) := by
    rw [List.range_succ_eq_map, List.map_cons, List.map_map]
    simp only [Function.comp, Nat.add_zero, List.cons.injEq, true_and]
    apply List.map_congr_left
    intro t _
    simp only [Function.comp_apply]
    have ht : j + Nat.succ t = j + 1 + t := by omega
    rw [ht]
  rw [hmap, List.flatten_cons, List.append_assoc]

theorem run3_tail (a2 : Nat) (mem : Int → Int) (a5 : Int) (ha : a2 < 2 ^ 32) :
    ∀ d, ∀ k, k + 1 + d = a2 → ∀ (v9p v7p v8p rp : Int) (E : List Ev3),
      run3 a2 mem a5 (d + 1)
          ⟨.loopBody, wrap32 (a2 : Int), wrap32 (k : Int), v9p, v7p, v8p, rp, E⟩ =
        ⟨.ret, wrap32 (a2 : Int), wrap32 (a2 : Int), wrap32 ((a2 : Int) - 1),
          setHIDWORD v7p 2, setHIDWORD v8p 3, rp,
          E ++ (((List.range (d + 1)).map
                  (fun t => iterEvs3 mem a5 v7p v8p (k + t))).flatten
            ++ [.exitEv])⟩ := by
  intro d
  induction d with
  | zero =>
      intro k hk v9p v7p v8p rp E
      have hka : k + 1 = a2 := by omega
      have hc1 : ((k : Int) + 1) = ((a2 : Nat) : Int) := by exact_mod_cast hka
      have hcond : wrap32 (wrap32 ((k : Nat) : Int) + 1) = wrap32 ((a2 : Nat) : Int) := by
        rw [wrap32_add_left, hc1]
      have hv9 : ((k : Nat) : Int) = ((a2 : Nat) : Int) - 1 := by omega
      rw [run3, run3]
      simp only [step3]
      rw [if_pos hcond]
      rw [St3.mk.injEq]
      refine ⟨rfl, rfl, ?_, ?_, rfl, rfl, rfl, ?_⟩
      · rw [wrap32_add_left, hc1]
      · rw [hv9]
      · simp [iterEvs3, List.range_succ]
  | succ d ih =>
      intro k hk v9p v7p v8p rp E
      have hlt : k + 1 < a2 := by omega
      have hc1 : ((k : Int) + 1) = ((k + 1 : Nat) : Int) := by push_cast; ring
      have hcond : ¬ (wrap32 (wrap32 ((k : Nat) : Int) + 1) = wrap32 ((a2 : Nat) : Int)) := by
        rw [wrap32_add_left, hc1,
          wrap32_eq_iff (by exact_mod_cast Nat.zero_le _)
            (by exact_mod_cast lt_trans hlt ha)
            (by exact_mod_cast Nat.zero_le _) (by exact_mod_cast ha)]
        exact_mod_cast Nat.ne_of_lt hlt
      have hstep : step3 a2 mem a5
          ⟨.loopBody, wrap32 (a2 : Int), wrap32 (k : Int), v9p, v7p, v8p, rp, E⟩ =
          ⟨.loopBody, wrap32 (a2 : Int), wrap32 ((k + 1 : Nat) : Int),
            wrap32 (k : Int), setHIDWORD v7p 2, setHIDWORD v8p 3, rp,
            E ++ iterEvs3 mem a5 v7p v8p k⟩ := by
        simp only [step3]
        rw [if_neg hcond]
        rw [St3.mk.injEq]
        refine ⟨rfl, rfl, ?_, rfl, rfl, rfl, rfl, ?_⟩
        · rw [wrap32_add_left, hc1]
        · simp [iterEvs3]
      have hmap : (List.range (d + 1)).map
            (fun t => iterEvs3 mem a5 (setHIDWORD v7p 2) (setHIDWORD v8p 3)
              (k + 1 + t)) =
          (List.range (d + 1)).map (fun t => iterEvs3 mem a5 v7p v8p (k + 1 + t)) := by
        apply List.map_congr_left
        intro t _
        exact iterEvs3_stable mem a5 v7p v8p (k + 1 + t)
      rw [run3, hstep, ih (k + 1) (by omega) (wrap32 (k : Int)) (setHIDWORD v7p 2)
        (setHIDWORD v8p 3) rp (E ++ iterEvs3 mem a5 v7p v8p k)]
      rw [setHIDWORD_stable, setHIDWORD_stable, hmap]
      rw [St3.mk.injEq]
      refine ⟨rfl, rfl, rfl, rfl, rfl, rfl, rfl, ?_⟩
      rw [← List.append_assoc, flatten_range_shift, List.append_assoc]

/-- The loop-body part of the trace of `unwrap_loops_3` with trip count
`a2`. -/
def loopTrace3 (mem : Int → Int) (a5 v70 v80 : Int) (a2 : Nat) : List Ev3 :=
  ((List.range a2).map (iterEvs3 mem a5 v70 v80)).flatten

theorem run3_entry (a2 : Nat) (mem : Int → Int) (a5 : Int)
    (v50 v100 v90 v70 v80 r0 : Int) (h0 : ¬ a2 = 0) :
    run3 a2 mem a5 1 (init3 v50 v100 v90 v70 v80 r0) =
      ⟨.loopBody, wrap32 (a2 : Int), wrap32 ((0 : Nat) : Int), v90, v70, v80,
        r0, [.enter]⟩ := by
  rw [run3, run3]
  simp only [step3, init3]
  rw [if_neg h0]
  rw [St3.mk.injEq]
  refine ⟨rfl, rfl, by decide, rfl, rfl, rfl, rfl, by simp⟩

theorem run3_mid (a2 : Nat) (mem : Int → Int) (a5 : Int)
    (v50 v100 v90 v70 v80 r0 : Int) (ha : a2 < 2 ^ 32) (h0 : 0 < a2) :
    run3 a2 mem a5 (a2 + 1) (init3 v50 v100 v90 v70 v80 r0) =
      ⟨.ret, wrap32 (a2 : Int), wrap32 (a2 : Int), wrap32 ((a2 : Int) - 1),
        setHIDWORD v70 2, setHIDWORD v80 3, r0,
        .enter :: (loopTrace3 mem a5 v70 v80 a2 ++ [.exitEv])⟩ := by
  obtain ⟨d, rfl⟩ : ∃ d, a2 = d + 1 := ⟨a2 - 1, by omega⟩
  have hfuel : d + 1 + 1 = 1 + (d + 1) := by omega
  rw [hfuel, run3_add, run3_entry _ _ _ _ _ _ _ _ _ (by omega),
    run3_tail (d + 1) mem a5 ha d 0 (by omega) v90 v70 v80 r0 [.enter]]
  rw [St3.mk.injEq]
  refine ⟨rfl, rfl, rfl, rfl, rfl, rfl, rfl, ?_⟩
  have hm0 : (List.range (d + 1)).map (fun t => iterEvs3 mem a5 v70 v80 (0 + t)) =
      (List.range (d + 1)).map (iterEvs3 mem a5 v70 v80) := by
    apply List.map_congr_left
    intro t _
    rw [Nat.zero_add]
  rw [hm0]
  simp [loopTrace3]

theorem run3_full (a2 : Nat) (mem : Int → Int) (a5 : Int)
    (v50 v100 v90 v70 v80 r0 : Int) (ha : a2 < 2 ^ 32) (h0 : 0 < a2) :
    run3 a2 mem a5 (a2 + 2) (init3 v50 v100 v90 v70 v80 r0) =
      ⟨.halted, wrap32 (a2 : Int), wrap32 (a2 : Int), wrap32 ((a2 : Int) - 1),
        setHIDWORD v70 2, setHIDWORD v80 3, 4,
        .enter :: (loopTrace3 mem a5 v70 v80 a2 ++ [.exitEv])⟩ := by
  have hfuel : a2 + 2 = (a2 + 1) + 1 := by omega
  rw [hfuel, run3_add, run3_mid a2 mem a5 v50 v100 v90 v70 v80 r0 ha h0]
  rw [run3, run3]
  rfl

/-- The `v10` values recorded at the `sub_180221640` calls of a trace, in
order. -/
def callIdxs (E : List Ev3) : List Int :=
  E.filterMap (fun e => match e with | .callEvt i _ => some i | _ => none)

theorem callIdxs_append (E1 E2 : List Ev3) :
    callIdxs (E1 ++ E2) = callIdxs E1 ++ callIdxs E2 := by
  simp [callIdxs]

theorem callIdxs_flatten (mem : Int → Int) (a5 v70 v80 : Int) (L : List Nat) :
    callIdxs ((L.map (iterEvs3 mem a5 v70 v80)).flatten) =
      (L.map (fun k : Nat => [wrap32 (k : Int), wrap32 (k : Int)])).flatten := by
  induction L with
  | nil => rfl
  | cons a L ih =>
      simp only [List.map_cons, List.flatten_cons, callIdxs_append, ih]
      rfl

theorem loopTrace3_no_marks (mem : Int → Int) (a5 v70 v80 : Int) (a2 : Nat) :
    ∀ e ∈ loopTrace3 mem a5 v70 v80 a2,
      (match e with | .enter => False | .exitEv => False | _ => True) := by
  intro e he
  simp only [loopTrace3, List.mem_flatten, List.mem_map] at he
  obtain ⟨l, ⟨k, _, rfl⟩, hl⟩ := he
  simp only [iterEvs3, List.mem_cons, List.not_mem_nil, or_false] at hl
  rcases hl with rfl | rfl <;> trivial

/-- Recognises the region-entry marker. -/
def isEnter (e : Ev3) : Bool := match e with | .enter => true | _ => false

/-- Recognises the region-exit marker. -/
def isExit (e : Ev3) : Bool := match e with | .exitEv => true | _ => false

theorem loopTrace3_countP_enter (mem : Int → Int) (a5 v70 v80 : Int)
    (a2 : Nat) : (loopTrace3 mem a5 v70 v80 a2).countP isEnter = 0 := by
  rw [List.countP_eq_zero]
  intro e he
  have h := loopTrace3_no_marks mem a5 v70 v80 a2 e he
  cases e <;> simp [isEnter] <;> simp at h

theorem loopTrace3_countP_exit (mem : Int → Int) (a5 v70 v80 : Int)
    (a2 : Nat) : (loopTrace3 mem a5 v70 v80 a2).countP isExit = 0 := by
  rw [List.countP_eq_zero]
  intro e he
  have h := loopTrace3_no_marks mem a5 v70 v80 a2 e he
  cases e <;> simp [isExit] <;> simp at h

/-- **C7**: in every execution of `unwrap_loops_3` the protected region (the
loop body guarded by `if (a2)`) is entered at most once, and exactly through
its single guard: the trace carries one entry marker when a2 ≠ 0 and none
when a2 = 0; whenever the region is entered it is exited exactly once,
through the loop's single break, and the trace is
`enter ; calls ; exit` — with no entry or exit marker among the calls, the
region is never re-entered after its exit. -/
theorem c7_protected_region (a2 : Nat) (mem : Int → Int) (a5 : Int)
    (v50 v100 v90 v70 v80 r0 : Int) (ha : a2 < 2 ^ 32) :
    (a2 = 0 →
        (run3 a2 mem a5 (a2 + 2) (init3 v50 v100 v90 v70 v80 r0)).events = [])
      ∧ (0 < a2 →
          (run3 a2 mem a5 (a2 + 2) (init3 v50 v100 v90 v70 v80 r0)).events =
              Ev3.enter :: (loopTrace3 mem a5 v70 v80 a2 ++ [Ev3.exitEv])
            ∧ ((run3 a2 mem a5 (a2 + 2)
                  (init3 v50 v100 v90 v70 v80 r0)).events).countP isEnter = 1
            ∧ ((run3 a2 mem a5 (a2 + 2)
                  (init3 v50 v100 v90 v70 v80 r0)).events).countP isExit = 1
            ∧ ∀ e ∈ loopTrace3 mem a5 v70 v80 a2,
                isEnter e = false ∧ isExit e = false) := by
  constructor
  · intro h0
    subst h0
    rw [run3, run3, run3]
    rfl
  · intro h0
    rw [run3_full a2 mem a5 v50 v100 v90 v70 v80 r0 ha h0]
    refine ⟨rfl, ?_, ?_, ?_⟩
    · simp only [List.countP_cons, List.countP_append,
        loopTrace3_countP_enter]
      rfl
    · simp only [List.countP_cons, List.countP_append,
        loopTrace3_countP_exit]
      rfl
    · intro e he
      have h := loopTrace3_no_marks mem a5 v70 v80 a2 e he
      cases e <;> simp [isEnter, isExit] <;> simp at h

theorem c7_protected_region_witness :
    ((2 : Nat) = 0 →
        (run3 2 (fun _ => 0) 0 (2 + 2) (init3 0 0 0 0 0 0)).events = [])
      ∧ (0 < 2 →
          (run3 2 (fun _ => 0) 0 (2 + 2) (init3 0 0 0 0 0 0)).events =
              Ev3.enter :: (loopTrace3 (fun _ => 0) 0 0 0 2 ++ [Ev3.exitEv])
            ∧ ((run3 2 (fun _ => 0) 0 (2 + 2)
                  (init3 0 0 0 0 0 0)).events).countP isEnter = 1
            ∧ ((run3 2 (fun _ => 0) 0 (2 + 2)
                  (init3 0 0 0 0 0 0)).events).countP isExit = 1
            ∧ ∀ e ∈ loopTrace3 (fun _ => 0) 0 0 0 2,
                isEnter e = false ∧ isExit e = false) :=
  c7_protected_region 2 (fun _ => 0) 0 0 0 0 0 0 0 (by norm_num)

theorem pairs_length (L : List Nat) :
    ((L.map (fun k : Nat => [(k : Int), (k : Int)])).flatten).length =
      2 * L.length := by
  induction L with
  | nil => rfl
  | cons a L ih =>
      simp only [List.map_cons, List.flatten_cons, List.length_append, ih,
        List.length_cons]
      simp
      omega

/-- **C9**: for every trip count with 0 < a2 ≤ 2^31 − 1 the loop of
`unwrap_loops_3` terminates after exactly a2 iterations — after a2+1 machine
steps the loop has just exited (program counter at the return), one step
later the machine has halted — and `sub_180221640` is called exactly 2·a2
times, twice per iteration, with the index `v10` taking the values
0,0,1,1,…,a2−1,a2−1 in increasing order; for a2 = 0 the body is skipped and
no call is made. -/
theorem c9_loop_trip_count (a2 : Nat) (mem : Int → Int) (a5 : Int)
    (v50 v100 v90 v70 v80 r0 : Int) (h0 : 0 < a2) (hm : a2 ≤ 2 ^ 31 - 1) :
    ((run3 a2 mem a5 (a2 + 1) (init3 v50 v100 v90 v70 v80 r0)).pc = Pc3.ret
      ∧ (run3 a2 mem a5 (a2 + 2) (init3 v50 v100 v90 v70 v80 r0)).pc = Pc3.halted
      ∧ callIdxs (run3 a2 mem a5 (a2 + 2)
            (init3 v50 v100 v90 v70 v80 r0)).events =
          ((List.range a2).map (fun k : Nat => [(k : Int), (k : Int)])).flatten
      ∧ (callIdxs (run3 a2 mem a5 (a2 + 2)
            (init3 v50 v100 v90 v70 v80 r0)).events).length = 2 * a2)
    ∧ (run3 0 mem a5 2 (init3 v50 v100 v90 v70 v80 r0)).events = [] := by
  have ha : a2 < 2 ^ 32 := by omega
  have hidx : callIdxs (run3 a2 mem a5 (a2 + 2)
      (init3 v50 v100 v90 v70 v80 r0)).events =
      ((List.range a2).map (fun k : Nat => [(k : Int), (k : Int)])).flatten := by
    rw [run3_full a2 mem a5 v50 v100 v90 v70 v80 r0 ha h0]
    have h1 : callIdxs (Ev3.enter ::
        (loopTrace3 mem a5 v70 v80 a2 ++ [Ev3.exitEv])) =
        callIdxs (loopTrace3 mem a5 v70 v80 a2) := by
      simp [callIdxs]
    rw [show (St3.mk Pc3.halted (wrap32 (a2 : Int)) (wrap32 (a2 : Int))
        (wrap32 ((a2 : Int) - 1)) (setHIDWORD v70 2) (setHIDWORD v80 3) 4
        (Ev3.enter :: (loopTrace3 mem a5 v70 v80 a2 ++ [Ev3.exitEv]))).events =
        Ev3.enter :: (loopTrace3 mem a5 v70 v80 a2 ++ [Ev3.exitEv]) from rfl]
    rw [h1]
    have h2 := callIdxs_flatten mem a5 v70 v80 (List.range a2)
    rw [show callIdxs (loopTrace3 mem a5 v70 v80 a2) =
        callIdxs (((List.range a2).map (iterEvs3 mem a5 v70 v80)).flatten)
        from rfl, h2]
    have h3 : (List.range a2).map
        (fun k : Nat => [wrap32 (k : Int), wrap32 (k : Int)]) =
        (List.range a2).map (fun k : Nat => [(k : Int), (k : Int)]) := by
      apply List.map_congr_left
      intro k hk
      rw [List.mem_range] at hk
      have hk31 : k < 2 ^ 31 := by omega
      have hw : wrap32 ((k : Nat) : Int) = (k : Int) :=
        wrap32_eq_self ⟨by omega, by omega⟩
      rw [hw]
    rw [h3]
  refine ⟨⟨?_, ?_, hidx, ?_⟩, ?_⟩
  · rw [run3_mid a2 mem a5 v50 v100 v90 v70 v80 r0 ha h0]
  · rw [run3_full a2 mem a5 v50 v100 v90 v70 v80 r0 ha h0]
  · rw [hidx, pairs_length (List.range a2), List.length_range]
  · rw [run3, run3, run3]
    rfl

theorem c9_loop_trip_count_witness :
    ((run3 1 (fun _ => 0) 0 (1 + 1) (init3 0 0 0 0 0 0)).pc = Pc3.ret
      ∧ (run3 1 (fun _ => 0) 0 (1 + 2) (init3 0 0 0 0 0 0)).pc = Pc3.halted
      ∧ callIdxs (run3 1 (fun _ => 0) 0 (1 + 2) (init3 0 0 0 0 0 0)).events =
          ((List.range 1).map (fun k : Nat => [(k : Int), (k : Int)])).flatten
      ∧ (callIdxs (run3 1 (fun _ => 0) 0 (1 + 2)
            (init3 0 0 0 0 0 0)).events).length = 2 * 1)
    ∧ (run3 0 (fun _ => 0) 0 2 (init3 0 0 0 0 0 0)).events = [] :=
  c9_loop_trip_count 1 (fun _ => 0) 0 0 0 0 0 0 0 (by norm_num) (by norm_num)

/-! ## Claim C8: input-independent return values -/

/-- Safety invariant of the `unwrap_loops` machine: whenever it has halted,
its `result` is 2. -/
def Inv1 (s : St1) : Prop :=
  (s.pc = .halted → s.result = 2)
    ∧ (s.pc = .afterWhile → (s.i = 1 ∨ s.i = 2) ∧ s.result = s.i)
    ∧ (s.pc = .whileTop → s.i = 0 ∨ s.i = 1 ∨ s.i = 2)

theorem inv1_step (o : Nat → Int) (s : St1) (h : Inv1 s) :
    Inv1 (step1 o s) := by
  obtain ⟨h1, h2, h3⟩ := h
  unfold Inv1 step1
  cases hpc : s.pc <;>
    simp only [hpc, forall_const, reduceCtorEq, false_implies, true_and]
      at h1 h2 h3 ⊢ <;>
    (try split_ifs) <;> (try simp_all) <;> (try omega)

theorem inv1_run (o : Nat → Int) :
    ∀ (n : Nat) (s : St1), Inv1 s → Inv1 (run1 o n s) := by
  intro n
  induction n with
  | zero => intro s h; exact h
  | succ n ih => intro s h; exact ih _ (inv1_step o s h)

/-- Safety invariant of the `unwrap_loops_3` machine: whenever it has
halted, its `result` is 4. -/
def Inv3 (s : St3) : Prop := s.pc = .halted → s.result = 4

theorem inv3_step (a2 : Nat) (mem : Int → Int) (a5 : Int) (s : St3)
    (h : Inv3 s) : Inv3 (step3 a2 mem a5 s) := by
  unfold Inv3 at h ⊢
  unfold step3
  cases hpc : s.pc <;> simp only [hpc] at h ⊢ <;> (try split_ifs) <;> simp_all

theorem inv3_run (a2 : Nat) (mem : Int → Int) (a5 : Int) :
    ∀ (n : Nat) (s : St3), Inv3 s → Inv3 (run3 a2 mem a5 n s) := by
  intro n
  induction n with
  | zero => intro s h; exact h
  | succ n ih => intro s h; exact ih _ (inv3_step a2 mem a5 s h)

/-- **C8**: the return value of each of the three functions is independent
of its arguments, of memory contents and of the outcomes of the external
compare-and-exchange calls: whenever it halts, `unwrap_loops` returns 2,
`unwrap_loops_2` returns 1 and `unwrap_loops_3` returns 4 — so any two
terminating runs with arbitrary (possibly different) inputs and oracles
return the same value. -/
theorem c8_constant_returns :
    (∀ (o : Nat → Int) (v20 r0 : Int) (n : Nat),
        (run1 o n (init1 v20 r0)).pc = .halted →
          (run1 o n (init1 v20 r0)).result = 2)
      ∧ (∀ (n8 stored bufArg v90 v60 r0 : Int) (n : Nat),
          (run2 n8 stored bufArg n (init2 v90 v60 r0)).pc = .halted →
            (run2 n8 stored bufArg n (init2 v90 v60 r0)).result = 1)
      ∧ (∀ (a2 : Nat) (mem : Int → Int) (a5 : Int)
            (v50 v100 v90 v70 v80 r0 : Int) (n : Nat),
          (run3 a2 mem a5 n (init3 v50 v100 v90 v70 v80 r0)).pc = .halted →
            (run3 a2 mem a5 n (init3 v50 v100 v90 v70 v80 r0)).result = 4) := by
  refine ⟨?_, ?_, ?_⟩
  · intro o v20 r0 n hh
    have h := inv1_run o n (init1 v20 r0) (by simp [Inv1, init1])
    exact h.1 hh
  · intro n8 stored bufArg v90 v60 r0 n hh
    have h := inv2_run n8 stored bufArg n (init2 v90 v60 r0)
      (by simp [Inv2, init2])
    exact h.1 hh
  · intro a2 mem a5 v50 v100 v90 v70 v80 r0 n hh
    have h := inv3_run a2 mem a5 n (init3 v50 v100 v90 v70 v80 r0)
      (by simp [Inv3, init3])
    exact h hh

theorem c8_constant_returns_witness :
    (run1 (fun _ => 0) 5 (init1 0 0)).result = 2
      ∧ (run2 10 5 0 11 (init2 0 0 0)).result = 1
      ∧ (run3 1 (fun _ => 0) 0 3 (init3 0 0 0 0 0 0)).result = 4 :=
  ⟨c8_constant_returns.1 (fun _ => 0) 0 0 5 (by decide),
   c8_constant_returns.2.1 10 5 0 0 0 0 11 (by decide),
   c8_constant_returns.2.2 1 (fun _ => 0) 0 0 0 0 0 0 0 3 (by decide)⟩
